import Mathlib

/-!
Verification of the pylendar date-expression engine (src/pylendar/pylendar.py).

The Python program manipulates `datetime.date` values.  We embed civil
(proleptic Gregorian) dates as a structure of integers together with the
standard ordinal (day-number) map; `datetime.date` construction, which raises
`ValueError` outside `MINYEAR..MAXYEAR` or for an invalid month/day, is
embedded as an `Option`-returning constructor `mkDate`.  Day arithmetic
(`date + timedelta(days=k)`) is embedded as `Date.addDays`, stepping one civil
day at a time; `Date.addDays` itself is total and is used on the domains
where the Python arithmetic cannot raise.  The places where the program can
raise an uncaught exception — `datetime.date` construction and
`calendar.monthrange` inside `_find_nth_weekday`, and the ordinal-overflow
check of timedelta addition — are embedded by a separate error-aware layer
(`mkDateE`, `addDaysE`, `find_nth_weekdayE`, `DateExpr.resolveE`,
`get_matching_eventE`) returning `Except Unit`, with the exception payload
abstracted to `Unit`.
-/

/-- Leap-year rule of the proleptic Gregorian calendar, as used by
`datetime.date` and `calendar.monthrange`. -/
def isLeapYear (y : Int) : Bool :=
  y % 4 == 0 && (y % 100 != 0 || y % 400 == 0)

/-- Number of days in a month, as returned by `calendar.monthrange(y, m)[1]`. -/
def monthLength (y m : Int) : Int :=
  if m = 2 then (if isLeapYear y then 29 else 28)
  else if m = 4 ∨ m = 6 ∨ m = 9 ∨ m = 11 then 30
  else 31

/-- Days in year `y` strictly before month `m` (for `1 ≤ m ≤ 12`). -/
def daysBeforeMonth (y m : Int) : Int :=
  let l : Int := if isLeapYear y then 1 else 0
  if m = 1 then 0 else if m = 2 then 31 else if m = 3 then 59 + l
  else if m = 4 then 90 + l else if m = 5 then 120 + l else if m = 6 then 151 + l
  else if m = 7 then 181 + l else if m = 8 then 212 + l else if m = 9 then 243 + l
  else if m = 10 then 273 + l else if m = 11 then 304 + l else 334 + l

/-- A civil calendar date, the embedding of Python `datetime.date`. -/
structure Date where
  year : Int
  month : Int
  day : Int
deriving DecidableEq

/-- A month/day pair that actually exists in the calendar.  (The year is not
bounded here; `mkDate` adds the `MINYEAR..MAXYEAR` bounds that
`datetime.date` construction enforces.) -/
def Date.Valid (d : Date) : Prop :=
  1 ≤ d.month ∧ d.month ≤ 12 ∧ 1 ≤ d.day ∧ d.day ≤ monthLength d.year d.month

instance (d : Date) : Decidable d.Valid := by
  unfold Date.Valid; infer_instance

/-- Embedding of the `datetime.date(y, m, d)` constructor: `none` models the
`ValueError` raised for an out-of-range year or a nonexistent month/day. -/
def mkDate (y m d : Int) : Option Date :=
  if 1 ≤ y ∧ y ≤ 9999 ∧ 1 ≤ m ∧ m ≤ 12 ∧ 1 ≤ d ∧ d ≤ monthLength y m then
    some ⟨y, m, d⟩
  else none

/-- Proleptic-Gregorian ordinal of a date (`datetime.date.toordinal`):
day number with `0001-01-01` mapped to `1`. -/
def Date.toOrdinal (d : Date) : Int :=
  365 * (d.year - 1) + (d.year - 1) / 4 - (d.year - 1) / 100 + (d.year - 1) / 400
    + daysBeforeMonth d.year d.month + d.day

/-- Embedding of `datetime.date.weekday()`: `0` = Monday … `6` = Sunday. -/
def Date.weekday (d : Date) : Int :=
  (d.toOrdinal + 6) % 7

/-- Successor day in the civil calendar. -/
def Date.nextDay (d : Date) : Date :=
  if d.day < monthLength d.year d.month then ⟨d.year, d.month, d.day + 1⟩
  else if d.month < 12 then ⟨d.year, d.month + 1, 1⟩
  else ⟨d.year + 1, 1, 1⟩

/-- Predecessor day in the civil calendar. -/
def Date.prevDay (d : Date) : Date :=
  if 1 < d.day then ⟨d.year, d.month, d.day - 1⟩
  else if 1 < d.month then ⟨d.year, d.month - 1, monthLength d.year (d.month - 1)⟩
  else ⟨d.year - 1, 12, 31⟩

/-- Embedding of `date + datetime.timedelta(days = k)`. -/
def Date.addDays (d : Date) (k : Int) : Date :=
  if 0 ≤ k then Date.nextDay^[k.toNat] d else Date.prevDay^[(-k).toNat] d

/-- Python `date` objects compare lexicographically on `(year, month, day)`. -/
def Date.toLexTriple (d : Date) : Int ×ₗ (Int ×ₗ Int) :=
  toLex (d.year, toLex (d.month, d.day))

instance : LinearOrder Date :=
  LinearOrder.lift' Date.toLexTriple (by
    intro a b h
    cases a; cases b
    simp only [Date.toLexTriple, toLex_inj, Prod.mk.injEq] at h
    simp_all)

/-- Embedding of `_find_nth_weekday` for `n > 0`: the first occurrence of the
weekday on/after the 1st of the month, plus `n - 1` weeks. -/
def nthTargetPos (year month weekday n : Int) : Date :=
  let firstDay : Date := ⟨year, month, 1⟩
  let daysAhead := (weekday - firstDay.weekday) % 7
  let firstOccurrence := firstDay.addDays daysAhead
  firstOccurrence.addDays (7 * (n - 1))

/-- Embedding of `_find_nth_weekday` for `n ≤ 0`: the last occurrence of the
weekday on/before the month's last day, plus `n + 1` weeks. -/
def nthTargetNeg (year month weekday n : Int) : Date :=
  let lastDay : Date := ⟨year, month, monthLength year month⟩
  let daysBack := (lastDay.weekday - weekday) % 7
  let lastOccurrence := lastDay.addDays (-daysBack)
  lastOccurrence.addDays (7 * (n + 1))

/-- Embedding of `_find_nth_weekday(year, month, weekday, n)`: `none` when the
requested occurrence does not exist (the computed date leaves the month). -/
def find_nth_weekday (year month weekday n : Int) : Option Date :=
  let target := if 0 < n then nthTargetPos year month weekday n
                else nthTargetNeg year month weekday n
  if target.month = month then some target else none

/-- The closed variant set of date expressions (the `DateExpr` class hierarchy
of pylendar: `FixedDate`, `FullDate`, `WildcardDay`, `SpecialDate`,
`RecurringDate`, `NthWeekdayOfMonth`, `NthWeekdayEveryMonth`,
`OffsetDateExpr`, `EveryWeekday`). -/
inductive DateExpr where
  | FixedDate (month day : Int)
  | FullDate (year month day : Int)
  | WildcardDay (day : Int)
  | SpecialDate (date : Date)
  | RecurringDate (dates : Finset Date)
  | NthWeekdayOfMonth (month weekday n : Int)
  | NthWeekdayEveryMonth (weekday n : Int)
  | OffsetDateExpr (base : DateExpr) (offset : Int)
  | EveryWeekday (weekday : Int)
deriving DecidableEq

/-- Embedding of the `EveryWeekday.resolve` while-loop: collect `current`,
stepping a week at a time, while `current.year == year`.  The loop runs at
most 53 times (a year has at most 366 days), so fuel 54 is exact. -/
def everyWeekdayLoop : Nat → Date → Int → List Date
  | 0, _, _ => []
  | fuel + 1, current, year =>
    if current.year = year then current :: everyWeekdayLoop fuel (current.addDays 7) year
    else []

/-- Embedding of `DateExpr.resolve(year)` for each variant, exactly as in the
Python `resolve` methods; `try/except ValueError` around `datetime.date`
construction becomes the `Option` returned by `mkDate`. -/
def DateExpr.resolve : DateExpr → Int → Finset Date
  | .FixedDate month day, year =>
    match mkDate year month day with
    | some d => {d}
    | none => ∅
  | .FullDate y month day, _ =>
    match mkDate y month day with
    | some d => {d}
    | none => ∅
  | .WildcardDay day, year =>
    ((List.range 12).filterMap (fun i => mkDate year ((i : Int) + 1) day)).toFinset
  | .SpecialDate date, _ => {date}
  | .RecurringDate dates, _ => dates
  | .NthWeekdayOfMonth month weekday n, year =>
    match find_nth_weekday year month weekday n with
    | some d => {d}
    | none => ∅
  | .NthWeekdayEveryMonth weekday n, year =>
    ((List.range 12).filterMap
      (fun i => find_nth_weekday year ((i : Int) + 1) weekday n)).toFinset
  | .OffsetDateExpr base offset, year =>
    (base.resolve year).image (fun d => d.addDays offset)
  | .EveryWeekday weekday, year =>
    let jan1 : Date := ⟨year, 1, 1⟩
    let daysAhead := (weekday - jan1.weekday) % 7
    let first := jan1.addDays daysAhead
    (everyWeekdayLoop 54 first year).toFinset

/-- Embedding of the `variable` class attribute: `True` on the abstract base,
overridden to `False` by `FixedDate`, `FullDate` and `WildcardDay`;
`OffsetDateExpr` delegates to its base expression. -/
def DateExpr.variable_ : DateExpr → Bool
  | .FixedDate _ _ => false
  | .FullDate _ _ _ => false
  | .WildcardDay _ => false
  | .SpecialDate _ => true
  | .RecurringDate _ => true
  | .NthWeekdayOfMonth _ _ _ => true
  | .NthWeekdayEveryMonth _ _ => true
  | .OffsetDateExpr base _ => base.variable_
  | .EveryWeekday _ => true

/-- Whitespace class of Python regex `\s` and of `str.strip` (ASCII part). -/
def pyIsSpace (c : Char) : Bool :=
  c == ' ' || c == '\t' || c == '\n' || c == '\r' || c == '\x0b' || c == '\x0c'

/-- Embedding of Python `str.strip()` (ASCII whitespace). -/
def pyStrip (s : String) : String :=
  String.mk (((s.toList.dropWhile pyIsSpace).reverse.dropWhile pyIsSpace).reverse)

/-- ASCII lower-casing of one character (`str.lower()` on the characters the
calendar grammar uses). -/
def pyLowerChar (c : Char) : Char :=
  if 'A' ≤ c ∧ c ≤ 'Z' then Char.ofNat (c.toNat + 32) else c

/-- Embedding of Python `str.lower()`. -/
def pyLower (s : String) : String :=
  String.mk (s.toList.map pyLowerChar)

/-- Character class of the regex `[a-z]`. -/
def isLowerAZ (c : Char) : Bool :=
  'a' ≤ c && c ≤ 'z'

/-- Character class of the regex `\d` (ASCII digits). -/
def isDigit09 (c : Char) : Bool :=
  '0' ≤ c && c ≤ '9'

/-- Decimal value of a digit string, as computed by Python `int(...)`. -/
def digitsToNat (ds : List Char) : Nat :=
  ds.foldl (fun a c => a * 10 + (c.toNat - 48)) 0

/-- Signed value of a `([+-])(\d+)` group pair: `sign = 1 if '+' else -1`. -/
def signedOffset (c : Char) (ds : List Char) : Int :=
  (if c == '-' then -1 else 1) * (digitsToNat ds : Int)

/-- Embedding of the module-level `ORDINAL_MAP` table. -/
def ORDINAL_MAP : List (String × Int) :=
  [("first", 1), ("second", 2), ("third", 3), ("fourth", 4), ("fifth", 5), ("last", -1)]

/-- Splits an all-lowercase run as `([a-z]+)(first|second|...|last)`: the
ordinal word must be a proper suffix of the run (the `[a-z]+` group is
greedy, and no ordinal word is a suffix of another, so the split is the one
the backtracking regex engine finds). -/
def splitOrdSuffix (a : List Char) : Option (List Char × Int) :=
  ORDINAL_MAP.findSome? (fun p =>
    let o := p.1.toList
    if o.isSuffixOf a ∧ o.length < a.length then
      some (a.take (a.length - o.length), p.2)
    else none)

/-- Month-name table built by `build_month_map` in the C locale:
`calendar.month_name` followed by `calendar.month_abbr`, lower-cased. -/
def month_map : List (String × Int) :=
  [("january", 1), ("february", 2), ("march", 3), ("april", 4), ("may", 5),
   ("june", 6), ("july", 7), ("august", 8), ("september", 9), ("october", 10),
   ("november", 11), ("december", 12),
   ("jan", 1), ("feb", 2), ("mar", 3), ("apr", 4), ("jun", 6),
   ("jul", 7), ("aug", 8), ("sep", 9), ("oct", 10), ("nov", 11), ("dec", 12)]

/-- Weekday-name table built by `build_weekday_map` in the C locale
(Monday = 0): `calendar.day_name` followed by `calendar.day_abbr`. -/
def weekday_map : List (String × Int) :=
  [("monday", 0), ("tuesday", 1), ("wednesday", 2), ("thursday", 3),
   ("friday", 4), ("saturday", 5), ("sunday", 6),
   ("mon", 0), ("tue", 1), ("wed", 2), ("thu", 3), ("fri", 4), ("sat", 5), ("sun", 6)]

/-- Full match of `([a-z]+)([+-])(\d+)` (the offset-suffixed keyword pattern),
returning the word and the signed offset. -/
def matchWordSignDigits (cs : List Char) : Option (String × Int) :=
  let w := cs.takeWhile isLowerAZ
  match cs.dropWhile isLowerAZ with
  | c :: ds =>
    if !w.isEmpty && (c == '+' || c == '-') && !ds.isEmpty && ds.all isDigit09 then
      some (String.mk w, signedOffset c ds)
    else none
  | [] => none

/-- Embedding of `_parse_full_date`: full match of a four-digit year, a
separator (slash or dash), one or two digits, a separator, and one or two
digits. -/
def parse_full_date (s : String) : Option DateExpr :=
  let cs := s.toList
  let y := cs.takeWhile isDigit09
  if y.length = 4 then
    match cs.dropWhile isDigit09 with
    | s1 :: r2 =>
      if s1 == '/' || s1 == '-' then
        let m := r2.takeWhile isDigit09
        if 1 ≤ m.length ∧ m.length ≤ 2 then
          match r2.dropWhile isDigit09 with
          | s2 :: r4 =>
            if s2 == '/' || s2 == '-' then
              let d := r4.takeWhile isDigit09
              if (1 ≤ d.length ∧ d.length ≤ 2) ∧ r4.dropWhile isDigit09 = [] then
                some (.FullDate (digitsToNat y) (digitsToNat m) (digitsToNat d))
              else none
            else none
          | [] => none
        else none
      else none
    | [] => none
  else none

/-- Embedding of `_parse_mm_dd`: full match of `(\d{1,2})/(\d{1,2})`. -/
def parse_mm_dd (s : String) : Option DateExpr :=
  let cs := s.toList
  let a := cs.takeWhile isDigit09
  match cs.dropWhile isDigit09 with
  | '/' :: r =>
    let b := r.takeWhile isDigit09
    if (1 ≤ a.length ∧ a.length ≤ 2) ∧ (1 ≤ b.length ∧ b.length ≤ 2)
        ∧ r.dropWhile isDigit09 = [] then
      some (.FixedDate (digitsToNat a) (digitsToNat b))
    else none
  | _ => none

/-- Embedding of `_parse_month_slash_dd`: full match of `([a-z]+)/(\d{1,2})`
with a month-name table lookup on the first group. -/
def parse_month_slash_dd (s : String) : Option DateExpr :=
  let cs := s.toList
  let a := cs.takeWhile isLowerAZ
  match cs.dropWhile isLowerAZ with
  | '/' :: r =>
    let b := r.takeWhile isDigit09
    if (!a.isEmpty) ∧ (1 ≤ b.length ∧ b.length ≤ 2) ∧ r.dropWhile isDigit09 = [] then
      (List.lookup (String.mk a) month_map).map (fun m => .FixedDate m (digitsToNat b))
    else none
  | _ => none

/-- Embedding of `_parse_mm_wkday_offset`: full match of
`(\d{1,2})/([a-z]+)([+-])(\d+)` with a weekday-name lookup. -/
def parse_mm_wkday_offset (s : String) : Option DateExpr :=
  let cs := s.toList
  let a := cs.takeWhile isDigit09
  match cs.dropWhile isDigit09 with
  | '/' :: r =>
    let w := r.takeWhile isLowerAZ
    match r.dropWhile isLowerAZ with
    | c :: ds =>
      if (1 ≤ a.length ∧ a.length ≤ 2) ∧ (!w.isEmpty)
          ∧ (c == '+' || c == '-') = true ∧ (!ds.isEmpty) ∧ ds.all isDigit09 = true then
        (List.lookup (String.mk w) weekday_map).map
          (fun wd => .NthWeekdayOfMonth (digitsToNat a) wd (signedOffset c ds))
      else none
    | [] => none
  | _ => none

/-- Full match of `([a-z]+)(ORDINALS)([+-]\d+)?` (the tail of both ordinal
patterns), returning the weekday-name group, the ordinal value and the
optional offset. -/
def matchOrdTail (cs : List Char) : Option (List Char × Int × Option Int) :=
  let a := cs.takeWhile isLowerAZ
  if a.isEmpty then none
  else
    match splitOrdSuffix a with
    | none => none
    | some (name, nv) =>
      match cs.dropWhile isLowerAZ with
      | [] => some (name, nv, none)
      | c :: ds =>
        if (c == '+' || c == '-') && !ds.isEmpty && ds.all isDigit09 then
          some (name, nv, some (signedOffset c ds))
        else none

/-- Embedding of `_parse_ordinal_weekday`: first the
`(\d{1,2})/([a-z]+)(ORD)([+-]\d+)?` pattern, then the
`([a-z]+)/([a-z]+)(ORD)([+-]\d+)?` pattern (whose month name must be known);
the weekday-name group is then looked up and the optional offset wraps the
result in `OffsetDateExpr`. -/
def parse_ordinal_weekday (s : String) : Option DateExpr :=
  let cs := s.toList
  let viaMM : Option (Int × List Char × Int × Option Int) :=
    let a := cs.takeWhile isDigit09
    match cs.dropWhile isDigit09 with
    | '/' :: r =>
      if 1 ≤ a.length ∧ a.length ≤ 2 then
        (matchOrdTail r).map (fun t => ((digitsToNat a : Int), t))
      else none
    | _ => none
  let viaName : Option (Int × List Char × Int × Option Int) :=
    let a := cs.takeWhile isLowerAZ
    match cs.dropWhile isLowerAZ with
    | '/' :: r =>
      if !a.isEmpty then
        (matchOrdTail r).bind (fun t =>
          (List.lookup (String.mk a) month_map).map (fun m => (m, t)))
      else none
    | _ => none
  match viaMM <|> viaName with
  | some (month, name, nv, off) =>
    (List.lookup (String.mk name) weekday_map).map (fun wd =>
      match off with
      | some o => .OffsetDateExpr (.NthWeekdayOfMonth month wd nv) o
      | none => .NthWeekdayOfMonth month wd nv)
  | none => none

/-- Embedding of `_parse_month_wkday_offset`: full match of
`([a-z]+)\s+([a-z]+)([+-])(\d+)` with month-name and weekday-name lookups. -/
def parse_month_wkday_offset (s : String) : Option DateExpr :=
  let cs := s.toList
  let a1 := cs.takeWhile isLowerAZ
  let r1 := cs.dropWhile isLowerAZ
  let sp := r1.takeWhile pyIsSpace
  let r2 := r1.dropWhile pyIsSpace
  let a2 := r2.takeWhile isLowerAZ
  match r2.dropWhile isLowerAZ with
  | c :: ds =>
    if (!a1.isEmpty) ∧ (!sp.isEmpty) ∧ (!a2.isEmpty)
        ∧ (c == '+' || c == '-') = true ∧ (!ds.isEmpty) ∧ ds.all isDigit09 = true then
      (List.lookup (String.mk a1) month_map).bind (fun m =>
        (List.lookup (String.mk a2) weekday_map).map (fun wd =>
          .NthWeekdayOfMonth m wd (signedOffset c ds)))
    else none
  | [] => none

/-- Embedding of `_parse_month_dd`: full match of `([a-z]{3,24})\s+(\d{1,2})`
with a month-name lookup. -/
def parse_month_dd (s : String) : Option DateExpr :=
  let cs := s.toList
  let a := cs.takeWhile isLowerAZ
  let r1 := cs.dropWhile isLowerAZ
  let sp := r1.takeWhile pyIsSpace
  let r2 := r1.dropWhile pyIsSpace
  let b := r2.takeWhile isDigit09
  if (3 ≤ a.length ∧ a.length ≤ 24) ∧ (!sp.isEmpty) ∧ (1 ≤ b.length ∧ b.length ≤ 2)
      ∧ r2.dropWhile isDigit09 = [] then
    (List.lookup (String.mk a) month_map).map (fun m => .FixedDate m (digitsToNat b))
  else none

/-- Embedding of `_parse_wildcard_wkday`: full match of
`\*\s+([a-z]+)([+-])(\d+)` with a weekday-name lookup. -/
def parse_wildcard_wkday (s : String) : Option DateExpr :=
  match s.toList with
  | '*' :: r =>
    let sp := r.takeWhile pyIsSpace
    let r1 := r.dropWhile pyIsSpace
    let a := r1.takeWhile isLowerAZ
    match r1.dropWhile isLowerAZ with
    | c :: ds =>
      if (!sp.isEmpty) ∧ (!a.isEmpty)
          ∧ (c == '+' || c == '-') = true ∧ (!ds.isEmpty) ∧ ds.all isDigit09 = true then
        (List.lookup (String.mk a) weekday_map).map
          (fun wd => .NthWeekdayEveryMonth wd (signedOffset c ds))
      else none
    | [] => none
  | _ => none

/-- Embedding of `_parse_wildcard_day`: full match of `\*\s+(\d{1,2})`. -/
def parse_wildcard_day (s : String) : Option DateExpr :=
  match s.toList with
  | '*' :: r =>
    let sp := r.takeWhile pyIsSpace
    let r1 := r.dropWhile pyIsSpace
    let b := r1.takeWhile isDigit09
    if (!sp.isEmpty) ∧ (1 ≤ b.length ∧ b.length ≤ 2) ∧ r1.dropWhile isDigit09 = [] then
      some (.WildcardDay (digitsToNat b))
    else none
  | _ => none

/-- Embedding of `_parse_wkday_ord_month`: full match of
`([a-z]+)(ORDINALS)\s+([a-z]+)` with weekday-name and month-name lookups. -/
def parse_wkday_ord_month (s : String) : Option DateExpr :=
  let cs := s.toList
  let a1 := cs.takeWhile isLowerAZ
  let r1 := cs.dropWhile isLowerAZ
  match splitOrdSuffix a1 with
  | none => none
  | some (name, nv) =>
    let sp := r1.takeWhile pyIsSpace
    let r2 := r1.dropWhile pyIsSpace
    let a2 := r2.takeWhile isLowerAZ
    if (!a1.isEmpty) ∧ (!sp.isEmpty) ∧ (!a2.isEmpty) ∧ r2.dropWhile isLowerAZ = [] then
      (List.lookup (String.mk name) weekday_map).bind (fun wd =>
        (List.lookup (String.mk a2) month_map).map (fun m =>
          .NthWeekdayOfMonth m wd nv))
    else none

/-- Embedding of `_parse_dd_month`: full match of `(\d{1,2})\s+([a-z]+)` with
a month-name lookup. -/
def parse_dd_month (s : String) : Option DateExpr :=
  let cs := s.toList
  let a := cs.takeWhile isDigit09
  let r1 := cs.dropWhile isDigit09
  let sp := r1.takeWhile pyIsSpace
  let r2 := r1.dropWhile pyIsSpace
  let b := r2.takeWhile isLowerAZ
  if (1 ≤ a.length ∧ a.length ≤ 2) ∧ (!sp.isEmpty) ∧ (!b.isEmpty)
      ∧ r2.dropWhile isLowerAZ = [] then
    (List.lookup (String.mk b) month_map).map (fun m => .FixedDate m (digitsToNat a))
  else none

/-- Embedding of `_parse_format_patterns`: the slash (or leading-digit dash)
branch tries the five slash families in order, the other branch tries the six
non-slash families in order. -/
def parse_format_patterns (date_str : String) : Option DateExpr :=
  let cs := date_str.toList
  let firstDigit := match cs with
    | c :: _ => isDigit09 c
    | [] => false
  if cs.contains '/' || (cs.contains '-' && firstDigit) then
    parse_full_date date_str <|> parse_mm_wkday_offset date_str
      <|> parse_ordinal_weekday date_str <|> parse_month_slash_dd date_str
      <|> parse_mm_dd date_str
  else
    parse_month_wkday_offset date_str <|> parse_month_dd date_str
      <|> parse_wildcard_wkday date_str <|> parse_wildcard_day date_str
      <|> parse_wkday_ord_month date_str <|> parse_dd_month date_str

/-- The parser state: the anchor table (`date_exprs`) the instance is closed
over.  The month/weekday name tables are the fixed C-locale tables above. -/
structure DateStringParser where
  date_exprs : String → Option DateExpr

/-- Embedding of `DateStringParser.parse`: trim and lower-case, then try the
offset-suffixed anchor pattern, the plain anchor/alias lookup, the bare
weekday name, the bare month name, and finally the format patterns. -/
def DateStringParser.parse (p : DateStringParser) (date_str : String) : Option DateExpr :=
  let t := pyLower (pyStrip date_str)
  let step1 := match matchWordSignDigits t.toList with
    | some (w, off) => (p.date_exprs w).map (fun base => .OffsetDateExpr base off)
    | none => none
  step1 <|> p.date_exprs t
    <|> ((List.lookup t weekday_map).map DateExpr.EveryWeekday)
    <|> ((List.lookup t month_map).map (fun m => .FixedDate m 1))
    <|> parse_format_patterns t

/-- Embedding of Python `str.rstrip()`. -/
def rstripPy (s : String) : String :=
  String.mk ((s.toList.reverse.dropWhile pyIsSpace).reverse)

/-- Functional update of an anchor-table entry (`date_exprs[k] = v`). -/
def updateExpr (m : String → Option DateExpr) (k : String) (v : DateExpr) :
    String → Option DateExpr :=
  fun s => if s = k then some v else m s

/-- Embedding of Python `line.split(sep, 1)` for a line known to contain
`sep`: the part before the first separator and the part after it. -/
def splitFirstOn (sep : Char) (s : String) : String × String :=
  let cs := s.toList
  (String.mk (cs.takeWhile (fun c => c != sep)),
   String.mk ((cs.dropWhile (fun c => c != sep)).drop 1))

/-- Embedding of the alias loop of `parse_special_dates`.  The table starts
from `base`, the injected astronomical/lunar anchors (`easter`, `paskha`,
`chinesenewyear`, the four season names, `newmoon`, `fullmoon`) computed by
the external collaborator libraries; each line containing `=` and no tab is
split on the first `=`, both sides trimmed and lower-cased, and then:
if the left side is known and the right is not, the right name is bound to
the left's expression; otherwise, if the right side is known, the left name
is bound to the right's expression. -/
def parse_special_dates (base : String → Option DateExpr) (calendar_lines : List String) :
    String → Option DateExpr :=
  calendar_lines.foldl (fun date_exprs line =>
    if line.toList.contains '=' && !line.toList.contains '\t' then
      let lr := splitFirstOn '=' line
      let left := pyLower (pyStrip lr.1)
      let right := pyLower (pyStrip lr.2)
      match date_exprs left, date_exprs right with
      | some vl, none => updateExpr date_exprs right vl
      | _, some vr => updateExpr date_exprs left vr
      | _, _ => date_exprs
    else date_exprs) base

/-- Embedding of `get_ahead_behind`: an explicit `ahead` is used unchanged;
otherwise the default is 3 when today's weekday equals `friday`, else 1. -/
def get_ahead_behind (today : Date) (ahead : Option Int) (behind : Int) (friday : Int) :
    Int × Int :=
  let weekday := today.weekday
  let ahead_days := match ahead with
    | some a => a
    | none => if weekday = friday then 3 else 1
  (ahead_days, behind)

/-- Embedding of `get_dates_to_check`: the dates `today + offset` for every
`offset` in `range(-behind, ahead + 1)`. -/
def get_dates_to_check (today : Date) (ahead behind : Int) : Finset Date :=
  (Finset.Icc (-behind) ahead).image (fun offset => today.addDays offset)

/-- Matches the regex `\[(\d{4})\]` at the head of the character list,
returning the four digit characters. -/
def matchYearAt : List Char → Option (List Char)
  | '[' :: d1 :: d2 :: d3 :: d4 :: ']' :: _ =>
    if [d1, d2, d3, d4].all isDigit09 then some [d1, d2, d3, d4] else none
  | _ => none

/-- Embedding of `re.search` for the pattern `\[(\d{4})\]`: the leftmost
match wins. -/
def findBracketYear : List Char → Option (List Char)
  | [] => none
  | c :: rest =>
    match matchYearAt (c :: rest) with
    | some ds => some ds
    | none => findBracketYear rest

/-- Recursion core of `pyReplace`, with fuel.  Each step consumes at least
one character of the remaining input (a nonempty pattern consumes
`pat.length` characters when it matches), so fuel equal to the input length
makes the fuel bound unreachable. -/
def pyReplaceAux (pat rep : List Char) : Nat → List Char → List Char
  | 0, s => s
  | _ + 1, [] => []
  | fuel + 1, c :: rest =>
    if 0 < pat.length ∧ pat.isPrefixOf (c :: rest) = true then
      rep ++ pyReplaceAux pat rep fuel ((c :: rest).drop pat.length)
    else
      c :: pyReplaceAux pat rep fuel rest

/-- Embedding of Python `str.replace(pat, rep)`: every non-overlapping
occurrence of `pat`, scanning left to right, is replaced by `rep`. -/
def pyReplace (pat rep s : List Char) : List Char :=
  pyReplaceAux pat rep s.length s

/-- Embedding of `replace_age_in_description`: if the description contains a
bracketed four-digit year, every occurrence of that literal bracketed year is
replaced by the decimal representation of `check_date.year - year`. -/
def replace_age_in_description (description : String) (check_date : Date) : String :=
  match findBracketYear description.toList with
  | some ds =>
    let age : Int := check_date.year - (digitsToNat ds : Int)
    String.mk (pyReplace ('[' :: (ds ++ [']'])) (toString age).toList description.toList)
  | none => description

/-- Embedding of the `Event` dataclass: date, description and the variability
display flag. -/
structure Event where
  date : Date
  description : String
  variable_ : Bool
deriving DecidableEq

/-- Embedding of `date_str.rstrip().endswith("*")` in `get_matching_event`. -/
def explicit_marker (date_str : String) : Bool :=
  (rstripPy date_str).toList.getLast? == some '*'

/-- The date field actually handed to the parser: the trailing asterisk (and
trailing whitespace) are removed when the explicit marker is present. -/
def stripped_field (date_str : String) : String :=
  if explicit_marker date_str then String.mk (rstripPy date_str).toList.dropLast
  else date_str

/-- Embedding of `get_matching_event`: reject blank or tab-less lines, split
on the first tab, strip the explicit variability marker, parse the date
field, resolve the expression once per distinct year of `dates_to_check`,
union the results, intersect with `dates_to_check`, and emit an `Event` at
the minimum matching date (with the age placeholder substituted and the
description stripped, as `Event.__post_init__` does). -/
def get_matching_event (line : String) (dates_to_check : Finset Date)
    (p : DateStringParser) : Option Event :=
  if pyStrip line = "" || !line.toList.contains '\t' then none
  else
    let parts := splitFirstOn '\t' line
    let date_str := parts.1
    let event_description := parts.2
    match p.parse (stripped_field date_str) with
    | none => none
    | some expr =>
      let years := dates_to_check.image Date.year
      let resolved := years.biUnion (fun year => expr.resolve year)
      let matching := resolved ∩ dates_to_check
      if h : matching.Nonempty then
        let check_date := matching.min' h
        some { date := check_date,
               description := pyStrip (replace_age_in_description event_description check_date),
               variable_ := explicit_marker date_str || expr.variable_ }
      else none

/-!
Error-aware layer.  The Python program catches `ValueError` only inside
`FixedDate.resolve`, `FullDate.resolve` and `WildcardDay.resolve`; the
`datetime.date` construction and `calendar.monthrange` call inside
`_find_nth_weekday`, and the overflow check of `date + timedelta`, raise
uncaught exceptions that propagate through `resolve` and
`get_matching_event` and abort the run.  The definitions below embed those
paths with `Except Unit` (the exception payload is abstracted to `Unit`, so
the outcome is independent of Python's unspecified set-iteration order).
-/

deriving instance DecidableEq for Except

/-- Embedding of `datetime.date(y, m, d)` with the `ValueError` surfaced as
an error instead of caught. -/
def mkDateE (y m d : Int) : Except Unit Date :=
  match mkDate y m d with
  | some dd => .ok dd
  | none => .error ()

/-- Embedding of `date + timedelta(days = k)` with the library's overflow
check: CPython requires the resulting ordinal to lie in `1..3652059` (the
ordinal of 9999-12-31) and raises `OverflowError` otherwise. -/
def addDaysE (d : Date) (k : Int) : Except Unit Date :=
  if 1 ≤ d.toOrdinal + k ∧ d.toOrdinal + k ≤ 3652059 then .ok (d.addDays k)
  else .error ()

/-- Error-aware embedding of `_find_nth_weekday`: `datetime.date(year,
month, 1)` raises for a month outside `1..12` or a year outside `1..9999`;
`calendar.monthrange` raises for a month outside `1..12`; the two timedelta
additions raise on ordinal overflow.  None of these are caught by
`_find_nth_weekday` or its callers. -/
def find_nth_weekdayE (year month weekday n : Int) : Except Unit (Option Date) :=
  let targetE : Except Unit Date :=
    if 0 < n then
      match mkDateE year month 1 with
      | .error e => .error e
      | .ok first_day =>
        match addDaysE first_day ((weekday - first_day.weekday) % 7) with
        | .error e => .error e
        | .ok first_occurrence => addDaysE first_occurrence (7 * (n - 1))
    else
      if month < 1 ∨ 12 < month then .error ()
      else
        match mkDateE year month (monthLength year month) with
        | .error e => .error e
        | .ok last_day =>
          match addDaysE last_day (-((last_day.weekday - weekday) % 7)) with
          | .error e => .error e
          | .ok last_occurrence => addDaysE last_occurrence (7 * (n + 1))
  match targetE with
  | .ok target => .ok (if target.month = month then some target else none)
  | .error e => .error e

/-- Error-aware `EveryWeekday.resolve` loop: `current += timedelta(weeks=1)`
can overflow at the calendar's upper bound. -/
def everyWeekdayLoopE : Nat → Date → Int → Except Unit (List Date)
  | 0, _, _ => .ok []
  | fuel + 1, current, year =>
    if current.year = year then
      match addDaysE current 7 with
      | .error e => .error e
      | .ok nxt =>
        match everyWeekdayLoopE fuel nxt year with
        | .error e => .error e
        | .ok l => .ok (current :: l)
    else .ok []

/-- Error-aware embedding of `DateExpr.resolve`.  The variants that guard
construction with `try/except` (`FixedDate`, `FullDate`, `WildcardDay`) and
the pre-resolved anchors never raise and coincide with `resolve`; the other
variants propagate the uncaught exceptions.  A Python set comprehension
raises as soon as any element raises, so `OffsetDateExpr` errors exactly
when some base date overflows and otherwise returns the shifted image. -/
def DateExpr.resolveE : DateExpr → Int → Except Unit (Finset Date)
  | .FixedDate month day, year => .ok (DateExpr.resolve (.FixedDate month day) year)
  | .FullDate y month day, year => .ok (DateExpr.resolve (.FullDate y month day) year)
  | .WildcardDay day, year => .ok (DateExpr.resolve (.WildcardDay day) year)
  | .SpecialDate date, year => .ok (DateExpr.resolve (.SpecialDate date) year)
  | .RecurringDate dates, year => .ok (DateExpr.resolve (.RecurringDate dates) year)
  | .NthWeekdayOfMonth month weekday n, year =>
    match find_nth_weekdayE year month weekday n with
    | .ok (some d) => .ok {d}
    | .ok none => .ok ∅
    | .error e => .error e
  | .NthWeekdayEveryMonth weekday n, year =>
    (List.range 12).foldlM (fun acc i =>
      match find_nth_weekdayE year ((i : Int) + 1) weekday n with
      | .ok (some d) => .ok (insert d acc)
      | .ok none => .ok acc
      | .error e => .error e) ∅
  | .OffsetDateExpr base offset, year =>
    match DateExpr.resolveE base year with
    | .ok s =>
      if ∀ d ∈ s, 1 ≤ d.toOrdinal + offset ∧ d.toOrdinal + offset ≤ 3652059 then
        .ok (s.image (fun d => d.addDays offset))
      else .error ()
    | .error e => .error e
  | .EveryWeekday weekday, year =>
    match mkDateE year 1 1 with
    | .error e => .error e
    | .ok jan1 =>
      match addDaysE jan1 ((weekday - jan1.weekday) % 7) with
      | .error e => .error e
      | .ok first =>
        match everyWeekdayLoopE 54 first year with
        | .error e => .error e
        | .ok l => .ok l.toFinset

/-- Error-aware per-year resolution loop of `get_matching_event`
(`for year in years: resolved |= expr.resolve(year)`): it raises as soon as
any year's resolution raises, and otherwise returns the union. -/
def resolveAllYearsE (expr : DateExpr) (years : Finset Int) : Except Unit (Finset Date) :=
  if ∀ y ∈ years, (expr.resolveE y).isOk = true then
    .ok (years.biUnion (fun y =>
      match expr.resolveE y with
      | .ok s => s
      | .error _ => ∅))
  else .error ()

/-- Error-aware embedding of `get_matching_event`: identical to
`get_matching_event` except that an exception escaping resolution aborts the
run (`Except.error`) instead of being reduced to "no match". -/
def get_matching_eventE (line : String) (dates_to_check : Finset Date)
    (p : DateStringParser) : Except Unit (Option Event) :=
  if pyStrip line = "" || !line.toList.contains '\t' then .ok none
  else
    let parts := splitFirstOn '\t' line
    let date_str := parts.1
    let event_description := parts.2
    match p.parse (stripped_field date_str) with
    | none => .ok none
    | some expr =>
      match resolveAllYearsE expr (dates_to_check.image Date.year) with
      | .error e => .error e
      | .ok resolved =>
        let matching := resolved ∩ dates_to_check
        if h : matching.Nonempty then
          let check_date := matching.min' h
          .ok (some { date := check_date,
                      description :=
                        pyStrip (replace_age_in_description event_description check_date),
                      variable_ := explicit_marker date_str || expr.variable_ })
        else .ok none

/-! Arithmetic facts about the civil-calendar embedding. -/

theorem monthLength_bounds (y m : Int) : 28 ≤ monthLength y m ∧ monthLength y m ≤ 31 := by
  unfold monthLength
  split
  · split <;> omega
  · split <;> omega

theorem toOrdinal_day_shift (y m dd : Int) :
    Date.toOrdinal ⟨y, m, dd⟩ = Date.toOrdinal ⟨y, m, 1⟩ + (dd - 1) := by
  simp only [Date.toOrdinal]
  ring

theorem nextDay_toOrdinal (d : Date) (h : d.Valid) :
    d.nextDay.toOrdinal = d.toOrdinal + 1 := by
  obtain ⟨y, m, dd⟩ := d
  obtain ⟨h1, h2, h3, h4⟩ := h
  simp only at h1 h2 h3 h4
  unfold Date.nextDay
  by_cases hd : dd < monthLength y m
  · simp only [if_pos hd, Date.toOrdinal]
    ring
  · have hdd : dd = monthLength y m := le_antisymm h4 (not_lt.mp hd)
    rw [if_neg hd]
    by_cases hm : m < 12
    · rw [if_pos hm]
      subst hdd
      cases hL : isLeapYear y <;>
        (interval_cases m <;> simp [Date.toOrdinal, daysBeforeMonth, monthLength, hL] <;> ring)
    · rw [if_neg hm]
      have hm12 : m = 12 := by omega
      subst hm12
      subst hdd
      cases hL : isLeapYear y <;>
        · simp only [Date.toOrdinal, daysBeforeMonth, monthLength, hL,
            if_true, if_false, Bool.false_eq_true, reduceIte]
          simp only [isLeapYear, Bool.and_eq_true, beq_iff_eq, Bool.or_eq_true,
            bne_iff_ne, ne_eq, Bool.and_eq_false_iff, Bool.or_eq_false_iff,
            Bool.not_eq_true, beq_eq_false_iff_ne, bne_eq_false_iff_eq] at hL
          omega

theorem nextDay_valid (d : Date) (h : d.Valid) : d.nextDay.Valid := by
  obtain ⟨y, m, dd⟩ := d
  obtain ⟨h1, h2, h3, h4⟩ := h
  simp only at h1 h2 h3 h4
  unfold Date.nextDay
  by_cases hd : dd < monthLength y m
  · simp only [if_pos hd, Date.Valid]
    refine ⟨h1, h2, by omega, by omega⟩
  · rw [if_neg hd]
    by_cases hm : m < 12
    · rw [if_pos hm]
      have := (monthLength_bounds y (m + 1)).1
      simp only [Date.Valid]
      exact ⟨by omega, by omega, by omega, by omega⟩
    · rw [if_neg hm]
      have := (monthLength_bounds (y + 1) 1).1
      simp only [Date.Valid]
      exact ⟨by omega, by omega, by omega, by omega⟩

theorem prevDay_toOrdinal (d : Date) (h : d.Valid) :
    d.prevDay.toOrdinal = d.toOrdinal - 1 := by
  obtain ⟨y, m, dd⟩ := d
  obtain ⟨h1, h2, h3, h4⟩ := h
  simp only at h1 h2 h3 h4
  unfold Date.prevDay
  by_cases hd : 1 < dd
  · simp only [if_pos hd, Date.toOrdinal]
    ring
  · have hdd : dd = 1 := by omega
    rw [if_neg hd]
    subst hdd
    by_cases hm : 1 < m
    · rw [if_pos hm]
      cases hL : isLeapYear y <;>
        (interval_cases m <;> simp [Date.toOrdinal, daysBeforeMonth, monthLength, hL] <;> ring)
    · rw [if_neg hm]
      have hm1 : m = 1 := by omega
      subst hm1
      cases hL : isLeapYear (y - 1) <;>
        · simp only [Date.toOrdinal, daysBeforeMonth, monthLength, hL,
            if_true, if_false, Bool.false_eq_true, reduceIte]
          simp only [isLeapYear, Bool.and_eq_true, beq_iff_eq, Bool.or_eq_true,
            bne_iff_ne, ne_eq, Bool.and_eq_false_iff, Bool.or_eq_false_iff,
            Bool.not_eq_true, beq_eq_false_iff_ne, bne_eq_false_iff_eq] at hL
          omega

theorem prevDay_valid (d : Date) (h : d.Valid) : d.prevDay.Valid := by
  obtain ⟨y, m, dd⟩ := d
  obtain ⟨h1, h2, h3, h4⟩ := h
  simp only at h1 h2 h3 h4
  unfold Date.prevDay
  by_cases hd : 1 < dd
  · simp only [if_pos hd, Date.Valid]
    exact ⟨h1, h2, by omega, by omega⟩
  · rw [if_neg hd]
    by_cases hm : 1 < m
    · rw [if_pos hm]
      have := (monthLength_bounds y (m - 1)).1
      simp only [Date.Valid]
      exact ⟨by omega, by omega, by omega, by omega⟩
    · rw [if_neg hm]
      have h31 : monthLength (y - 1) 12 = 31 := by simp [monthLength]
      simp only [Date.Valid, h31]
      exact ⟨by omega, by omega, by omega, le_refl 31⟩

theorem nextDay_iter_spec (j : Nat) (d : Date) (h : d.Valid) :
    (Date.nextDay^[j] d).Valid ∧ (Date.nextDay^[j] d).toOrdinal = d.toOrdinal + j := by
  induction j generalizing d with
  | zero => simpa using h
  | succ j ih =>
    rw [Function.iterate_succ_apply]
    obtain ⟨hv, ho⟩ := ih d.nextDay (nextDay_valid d h)
    refine ⟨hv, ?_⟩
    rw [ho, nextDay_toOrdinal d h]
    push_cast
    ring

theorem prevDay_iter_spec (j : Nat) (d : Date) (h : d.Valid) :
    (Date.prevDay^[j] d).Valid ∧ (Date.prevDay^[j] d).toOrdinal = d.toOrdinal - j := by
  induction j generalizing d with
  | zero => simpa using h
  | succ j ih =>
    rw [Function.iterate_succ_apply]
    obtain ⟨hv, ho⟩ := ih d.prevDay (prevDay_valid d h)
    refine ⟨hv, ?_⟩
    rw [ho, prevDay_toOrdinal d h]
    push_cast
    ring

theorem addDays_spec (d : Date) (k : Int) (h : d.Valid) :
    (d.addDays k).Valid ∧ (d.addDays k).toOrdinal = d.toOrdinal + k := by
  unfold Date.addDays
  split
  · rename_i hk
    obtain ⟨hv, ho⟩ := nextDay_iter_spec k.toNat d h
    exact ⟨hv, by rw [ho, Int.toNat_of_nonneg hk]⟩
  · rename_i hk
    obtain ⟨hv, ho⟩ := prevDay_iter_spec (-k).toNat d h
    refine ⟨hv, ?_⟩
    rw [ho, Int.toNat_of_nonneg (by omega : (0:Int) ≤ -k)]
    ring

theorem addDays_weekday (d : Date) (k : Int) (h : d.Valid) :
    (d.addDays k).weekday = (d.weekday + k) % 7 := by
  simp only [Date.weekday, (addDays_spec d k h).2]
  omega

theorem nextDay_iter_in_month (j : Nat) : ∀ (y m dd : Int), 1 ≤ dd →
    dd + j ≤ monthLength y m →
    Date.nextDay^[j] ⟨y, m, dd⟩ = ⟨y, m, dd + j⟩ := by
  induction j with
  | zero =>
    intro y m dd h1 h2
    simp
  | succ j ih =>
    intro y m dd h1 h2
    rw [Function.iterate_succ_apply]
    have hlt : dd < monthLength y m := by
      have : ((j : Int) + 1) = ((j + 1 : Nat) : Int) := by push_cast; ring
      omega
    have hstep : Date.nextDay ⟨y, m, dd⟩ = ⟨y, m, dd + 1⟩ := by
      unfold Date.nextDay
      simp [hlt]
    rw [hstep, ih y m (dd + 1) (by omega) (by push_cast at h2 ⊢; omega)]
    have : dd + 1 + (j : Int) = dd + ((j + 1 : Nat) : Int) := by push_cast; ring
    rw [this]

theorem addDays_in_month (y m dd k : Int) (h0 : 0 ≤ k) (h1 : 1 ≤ dd)
    (h2 : dd + k ≤ monthLength y m) :
    Date.addDays ⟨y, m, dd⟩ k = ⟨y, m, dd + k⟩ := by
  unfold Date.addDays
  rw [if_pos h0,
    nextDay_iter_in_month k.toNat y m dd h1 (by rw [Int.toNat_of_nonneg h0]; exact h2)]
  rw [Int.toNat_of_nonneg h0]

/-! Claim theorems. -/

/-- C1: for every valid month, weekday and `n` with `1 ≤ n ≤ 4`, resolving
`NthWeekdayOfMonth(month, weekday, n)` for a year yields a single date with
the requested weekday, lying within days `[(n-1)*7+1, n*7]` of that month;
for `n > 0` the algorithm takes the first occurrence of the weekday on/after
the 1st plus `n - 1` weeks, and when the resulting date's month differs from
the requested month the resolution is empty (e.g. the 5th Monday of
February 2026). -/
theorem nth_weekday_of_month_correct :
    (∀ y m w n : Int, 1 ≤ m → m ≤ 12 → 0 ≤ w → w ≤ 6 → 1 ≤ n → n ≤ 4 →
      ∃ d : Date,
        DateExpr.resolve (.NthWeekdayOfMonth m w n) y = {d} ∧
        d.weekday = w ∧ d.year = y ∧ d.month = m ∧
        7 * (n - 1) + 1 ≤ d.day ∧ d.day ≤ 7 * n) ∧
    (∀ y m w n : Int, 0 < n → (nthTargetPos y m w n).month ≠ m →
      DateExpr.resolve (.NthWeekdayOfMonth m w n) y = ∅) ∧
    DateExpr.resolve (.NthWeekdayOfMonth 2 0 5) 2026 = ∅ := by
  refine ⟨?_, ?_, by set_option maxRecDepth 8000 in decide⟩
  · intro y m w n hm1 hm2 hw0 hw6 hn1 hn4
    have hml := monthLength_bounds y m
    have ha0 : 0 ≤ (w - Date.weekday ⟨y, m, 1⟩) % 7 := Int.emod_nonneg _ (by norm_num)
    have ha7 : (w - Date.weekday ⟨y, m, 1⟩) % 7 < 7 := Int.emod_lt_of_pos _ (by norm_num)
    have hstep1 : Date.addDays ⟨y, m, 1⟩ ((w - Date.weekday ⟨y, m, 1⟩) % 7)
        = ⟨y, m, 1 + (w - Date.weekday ⟨y, m, 1⟩) % 7⟩ :=
      addDays_in_month y m 1 _ ha0 le_rfl (by omega)
    have hstep2 : Date.addDays ⟨y, m, 1 + (w - Date.weekday ⟨y, m, 1⟩) % 7⟩ (7 * (n - 1))
        = ⟨y, m, 1 + (w - Date.weekday ⟨y, m, 1⟩) % 7 + 7 * (n - 1)⟩ :=
      addDays_in_month y m _ _ (by omega) (by omega) (by omega)
    have htarget : nthTargetPos y m w n
        = ⟨y, m, 1 + (w - Date.weekday ⟨y, m, 1⟩) % 7 + 7 * (n - 1)⟩ := by
      simp only [nthTargetPos]
      rw [hstep1, hstep2]
    refine ⟨⟨y, m, 1 + (w - Date.weekday ⟨y, m, 1⟩) % 7 + 7 * (n - 1)⟩,
      ?_, ?_, rfl, rfl, by dsimp only; omega, by dsimp only; omega⟩
    · have h0n : (0:Int) < n := by omega
      simp [DateExpr.resolve, find_nth_weekday, htarget, h0n]
    · have hshift := toOrdinal_day_shift y m
        (1 + (w - Date.weekday ⟨y, m, 1⟩) % 7 + 7 * (n - 1))
      simp only [Date.weekday] at hshift ⊢
      rw [hshift]
      omega
  · intro y m w n hn hne
    simp only [DateExpr.resolve, find_nth_weekday]
    rw [if_pos hn, if_neg hne]

/-- Witness for the universally quantified part of the C1 theorem: the second
Sunday of May 2026. -/
theorem nth_weekday_of_month_correct_witness :
    ∃ d : Date, DateExpr.resolve (.NthWeekdayOfMonth 5 6 2) 2026 = {d} ∧
      d.weekday = 6 ∧ d.year = 2026 ∧ d.month = 5 ∧
      7 * (2 - 1) + 1 ≤ d.day ∧ d.day ≤ 7 * 2 :=
  nth_weekday_of_month_correct.1 2026 5 6 2 (by decide) (by decide) (by decide)
    (by decide) (by decide) (by decide)

/-- C2: resolving `Offset(base, d)` equals shifting every date of the base's
resolution by `d` days, for every base expression, every signed day count and
every year, including across month and year boundaries; with Easter 2026 =
April 5, `Offset(Easter, -2)` resolves to April 3, 2026 and
`Offset(Easter, -46)` resolves to February 18, 2026. -/
theorem offset_resolve_correct :
    (∀ (base : DateExpr) (d y : Int),
      DateExpr.resolve (.OffsetDateExpr base d) y
        = (base.resolve y).image (fun x => x.addDays d)) ∧
    DateExpr.resolve (.OffsetDateExpr (.SpecialDate ⟨2026, 4, 5⟩) (-2)) 2026
      = {⟨2026, 4, 3⟩} ∧
    DateExpr.resolve (.OffsetDateExpr (.SpecialDate ⟨2026, 4, 5⟩) (-46)) 2026
      = {⟨2026, 2, 18⟩} :=
  ⟨fun _ _ _ => rfl, by set_option maxRecDepth 4000 in decide,
    by set_option maxRecDepth 4000 in decide⟩

/-- C10: `SpecialDate` and `RecurringDate` (the pre-resolved anchor
expressions) ignore the year argument entirely: resolving them for any two
query years yields the same set. -/
theorem anchor_resolve_ignores_year :
    (∀ (d : Date) (y1 y2 : Int),
      DateExpr.resolve (.SpecialDate d) y1 = DateExpr.resolve (.SpecialDate d) y2) ∧
    (∀ (s : Finset Date) (y1 y2 : Int),
      DateExpr.resolve (.RecurringDate s) y1 = DateExpr.resolve (.RecurringDate s) y2) :=
  ⟨fun _ _ _ => rfl, fun _ _ _ => rfl⟩

/-- C4: the window policy defaults `ahead` to 3 when today's weekday equals
the `friday` trigger and to 1 otherwise, uses an explicit `ahead` unchanged
for any weekday, and `get_dates_to_check` returns exactly the inclusive range
of dates from `today - behind` to `today + ahead` (stated via the ordinal
map, which identifies dates with consecutive integers). -/
theorem window_policy_correct :
    (∀ (today : Date) (behind friday : Int), today.weekday = friday →
      get_ahead_behind today none behind friday = (3, behind)) ∧
    (∀ (today : Date) (behind friday : Int), today.weekday ≠ friday →
      get_ahead_behind today none behind friday = (1, behind)) ∧
    (∀ (today : Date) (a behind friday : Int),
      get_ahead_behind today (some a) behind friday = (a, behind)) ∧
    (∀ (today : Date) (ahead behind : Int), today.Valid → 0 ≤ behind →
      (get_dates_to_check today ahead behind).image Date.toOrdinal
        = Finset.Icc (today.toOrdinal - behind) (today.toOrdinal + ahead)) := by
  refine ⟨?_, ?_, ?_, ?_⟩
  · intro today behind friday h
    simp [get_ahead_behind, h]
  · intro today behind friday h
    simp [get_ahead_behind, h]
  · intro today a behind friday
    rfl
  · intro today ahead behind hv _hb
    ext n
    rw [get_dates_to_check, Finset.image_image]
    simp only [Finset.mem_image, Finset.mem_Icc, Function.comp]
    constructor
    · rintro ⟨k, hk, rfl⟩
      rw [(addDays_spec today k hv).2]
      omega
    · intro hn
      refine ⟨n - today.toOrdinal, by omega, ?_⟩
      rw [(addDays_spec today _ hv).2]
      omega

/-- Witness for the C4 theorem: 2026-02-13 is a Friday (weekday 4),
2026-02-17 a Tuesday. -/
theorem window_policy_correct_witness :
    get_ahead_behind ⟨2026, 2, 13⟩ none 0 4 = (3, 0) ∧
    get_ahead_behind ⟨2026, 2, 17⟩ none 0 4 = (1, 0) ∧
    get_ahead_behind ⟨2026, 2, 17⟩ (some 7) 2 4 = (7, 2) ∧
    (get_dates_to_check ⟨2026, 2, 17⟩ 1 0).image Date.toOrdinal
      = Finset.Icc ((⟨2026, 2, 17⟩ : Date).toOrdinal - 0)
          ((⟨2026, 2, 17⟩ : Date).toOrdinal + 1) :=
  ⟨window_policy_correct.1 ⟨2026, 2, 13⟩ 0 4 (by decide),
   window_policy_correct.2.1 ⟨2026, 2, 17⟩ 0 4 (by decide),
   window_policy_correct.2.2.1 ⟨2026, 2, 17⟩ 7 2 4,
   window_policy_correct.2.2.2 ⟨2026, 2, 17⟩ 1 0 (by decide) (by decide)⟩

/-- C5 counterexample: matching is not total and can raise.  The date field
"13/Sun+1" parses (no month validation in `_parse_mm_wkday_offset`) to
`NthWeekdayOfMonth(13, 6, 1)`; resolving it calls `datetime.date(year, 13,
1)`, whose `ValueError` nothing catches, so matching the line
"13/Sun+1\tx" is an uncaught error that aborts processing; likewise an
`Offset` whose shifted date leaves the supported calendar range. -/
theorem matching_never_raises_counterexample :
    (⟨fun _ => none⟩ : DateStringParser).parse "13/Sun+1"
        = some (.NthWeekdayOfMonth 13 6 1) ∧
    DateExpr.resolveE (.NthWeekdayOfMonth 13 6 1) 2026 = .error () ∧
    get_matching_eventE "13/Sun+1\tx" {⟨2026, 1, 1⟩} ⟨fun _ => none⟩ = .error () ∧
    DateExpr.resolveE (.OffsetDateExpr (.SpecialDate ⟨2026, 4, 5⟩) 10000000) 2026
        = .error () :=
  ⟨by decide, by decide, by decide, by decide⟩

/-- C5 (amended): an unparseable date field reduces to no match and an
invalid day-of-month, or the absent fifth Monday of an in-range month,
reduces to an empty resolved set, in both cases without raising; but
matching is not total: resolving `NthWeekdayOfMonth` with a month outside
`1..12` — which the parser produces from fields like "13/Sun+1" — is an
uncaught error (the `ValueError` of `datetime.date`), which aborts
processing of the remaining lines. -/
theorem matching_error_behavior_amended :
    (∀ (line : String) (dates : Finset Date) (p : DateStringParser),
      p.parse (stripped_field (splitFirstOn '\t' line).1) = none →
      get_matching_eventE line dates p = .ok none) ∧
    (∀ y m d : Int, mkDate y m d = none →
      DateExpr.resolveE (.FixedDate m d) y = .ok ∅) ∧
    DateExpr.resolveE (.NthWeekdayOfMonth 2 0 5) 2026 = .ok ∅ ∧
    (∀ y m w n : Int, m < 1 ∨ 12 < m →
      DateExpr.resolveE (.NthWeekdayOfMonth m w n) y = .error ()) := by
  refine ⟨?_, ?_, by set_option maxRecDepth 8000 in decide, ?_⟩
  · intro line dates p h
    simp only [get_matching_eventE, h]
    split <;> rfl
  · intro y m d h
    simp only [DateExpr.resolveE, DateExpr.resolve, h]
  · intro y m w n hm
    have hmk : mkDate y m 1 = none := by
      unfold mkDate
      split
      · rename_i hc
        exfalso
        omega
      · rfl
    by_cases hn : 0 < n
    · simp only [DateExpr.resolveE, find_nth_weekdayE, mkDateE, hmk, if_pos hn]
    · simp only [DateExpr.resolveE, find_nth_weekdayE, if_neg hn,
        if_pos (show m < 1 ∨ 12 < m from hm)]

/-- Witness for the amended C5 theorem: an unparseable line, February 30,
and the month-13 error case. -/
theorem matching_error_behavior_amended_witness :
    get_matching_eventE "notadate\tsome event" {⟨2026, 1, 1⟩} ⟨fun _ => none⟩
        = .ok none ∧
    DateExpr.resolveE (.FixedDate 2 30) 2026 = .ok ∅ ∧
    DateExpr.resolveE (.NthWeekdayOfMonth 13 6 1) 2026 = .error () :=
  ⟨matching_error_behavior_amended.1 "notadate\tsome event" {⟨2026, 1, 1⟩}
     ⟨fun _ => none⟩ (by decide),
   matching_error_behavior_amended.2.1 2026 2 30 (by decide),
   matching_error_behavior_amended.2.2.2 2026 13 6 1 (by decide)⟩

/-- C7: the emitted Event's variability flag equals the explicit trailing
asterisk marker OR-ed with the parsed expression's own variability, where
`FixedDate` and `WildcardDay` are not variable, anchor-derived
`SpecialDate`/`RecurringDate` expressions are variable, and `OffsetDateExpr`
delegates variability to its base. -/
theorem variability_flag_correct :
    (∀ m d : Int, (DateExpr.FixedDate m d).variable_ = false) ∧
    (∀ d : Int, (DateExpr.WildcardDay d).variable_ = false) ∧
    (∀ d : Date, (DateExpr.SpecialDate d).variable_ = true) ∧
    (∀ s : Finset Date, (DateExpr.RecurringDate s).variable_ = true) ∧
    (∀ (base : DateExpr) (k : Int),
      (DateExpr.OffsetDateExpr base k).variable_ = base.variable_) ∧
    (∀ (line : String) (dates : Finset Date) (p : DateStringParser)
        (expr : DateExpr) (ev : Event),
      p.parse (stripped_field (splitFirstOn '\t' line).1) = some expr →
      get_matching_event line dates p = some ev →
      ev.variable_ = (explicit_marker (splitFirstOn '\t' line).1 || expr.variable_)) := by
  refine ⟨fun _ _ => rfl, fun _ => rfl, fun _ => rfl, fun _ => rfl, fun _ _ => rfl, ?_⟩
  intro line dates p expr ev hp hev
  simp only [get_matching_event, hp] at hev
  split at hev
  · exact absurd hev (by simp)
  · split at hev
    · cases hev
      rfl
    · exact absurd hev (by simp)

/-- Witness for the C7 theorem: an explicitly starred fixed date; the event
is flagged variable although `FixedDate` itself is not. -/
theorem variability_flag_correct_witness :
    (⟨⟨2026, 5, 10⟩, "Mothers Day", true⟩ : Event).variable_
      = (explicit_marker (splitFirstOn '\t' "05/10*\tMothers Day").1
          || (DateExpr.FixedDate 5 10).variable_) :=
  variability_flag_correct.2.2.2.2.2 "05/10*\tMothers Day" {⟨2026, 5, 10⟩}
    ⟨fun _ => none⟩ (.FixedDate 5 10) ⟨⟨2026, 5, 10⟩, "Mothers Day", true⟩
    (by decide) (by decide)

/-- C9: when the description contains a bracketed four-digit year, every
occurrence of that literal bracketed year is replaced by the decimal value of
`matched year - YYYY` (via `pyReplace`, the replace-all embedding); a
description without such a placeholder is returned unchanged; and
"Born [1990]" matched against a date in 2026 becomes "Born 36". -/
theorem replace_age_correct :
    (∀ (description : String) (d : Date),
      findBracketYear description.toList = none →
      replace_age_in_description description d = description) ∧
    (∀ (description : String) (d : Date) (ds : List Char),
      findBracketYear description.toList = some ds →
      replace_age_in_description description d
        = String.mk (pyReplace ('[' :: (ds ++ [']']))
            (toString (d.year - (digitsToNat ds : Int))).toList description.toList)) ∧
    replace_age_in_description "Born [1990]" ⟨2026, 1, 1⟩ = "Born 36" := by
  refine ⟨?_, ?_, by decide⟩
  · intro s d h
    have h2 : findBracketYear s.data = none := h
    simp [replace_age_in_description, h2]
  · intro s d ds h
    have h2 : findBracketYear s.data = some ds := h
    simp [replace_age_in_description, h2]

/-- Witness for the C9 theorem at the spec's own example. -/
theorem replace_age_correct_witness :
    replace_age_in_description "Born [1990]" ⟨2026, 1, 1⟩
      = String.mk (pyReplace ('[' :: (['1', '9', '9', '0'] ++ [']']))
          (toString ((2026 : Int) - (digitsToNat ['1', '9', '9', '0'] : Int))).toList
          ("Born [1990]").toList) :=
  replace_age_correct.2.1 "Born [1990]" ⟨2026, 1, 1⟩ ['1', '9', '9', '0'] (by decide)

/-- C3: for a nonblank line with a tab whose date field parses, the matcher
resolves the expression once per distinct year of `dates_to_check`, unions
the results and intersects with `dates_to_check`; when the intersection is
nonempty it emits exactly one Event whose date is the minimum of the
intersection, and when it is empty it emits nothing. -/
theorem matcher_min_date_correct :
    (∀ (line : String) (dates : Finset Date) (p : DateStringParser) (expr : DateExpr),
      pyStrip line ≠ "" →
      line.toList.contains '\t' = true →
      p.parse (stripped_field (splitFirstOn '\t' line).1) = some expr →
      ∀ h : ((dates.image Date.year).biUnion (fun year => expr.resolve year)
          ∩ dates).Nonempty,
        get_matching_event line dates p
          = some ⟨((dates.image Date.year).biUnion (fun year => expr.resolve year)
                ∩ dates).min' h,
              pyStrip (replace_age_in_description (splitFirstOn '\t' line).2
                (((dates.image Date.year).biUnion (fun year => expr.resolve year)
                  ∩ dates).min' h)),
              explicit_marker (splitFirstOn '\t' line).1 || expr.variable_⟩) ∧
    (∀ (line : String) (dates : Finset Date) (p : DateStringParser) (expr : DateExpr),
      p.parse (stripped_field (splitFirstOn '\t' line).1) = some expr →
      (dates.image Date.year).biUnion (fun year => expr.resolve year) ∩ dates = ∅ →
      get_matching_event line dates p = none) := by
  constructor
  · intro line dates p expr hne htab hp h
    have htab2 : '\t' ∈ line.data := by simpa using htab
    simp only [get_matching_event, hp]
    rw [if_neg (by simp [hne, htab2]), dif_pos h]
  · intro line dates p expr hp hempty
    simp only [get_matching_event, hp]
    split
    · rfl
    · rw [dif_neg (by simp [hempty])]

/-- Witness for the C3 theorem: the spec §8 matching example, July 4 within
the window July 3–6, 2024; the minimum of the singleton intersection is
July 4. -/
theorem matcher_min_date_correct_witness :
    get_matching_event "07/04\tIndependence Day"
        {⟨2024, 7, 3⟩, ⟨2024, 7, 4⟩, ⟨2024, 7, 5⟩, ⟨2024, 7, 6⟩} ⟨fun _ => none⟩
      = some ⟨⟨2024, 7, 4⟩, "Independence Day", false⟩ := by
  rw [matcher_min_date_correct.1 "07/04\tIndependence Day"
    {⟨2024, 7, 3⟩, ⟨2024, 7, 4⟩, ⟨2024, 7, 5⟩, ⟨2024, 7, 6⟩} ⟨fun _ => none⟩
    (.FixedDate 7 4) (by decide) (by decide) (by decide) (by decide)]
  set_option maxRecDepth 8000 in decide

/-- Concrete anchor table used to exercise the alias loop: Easter 2026
(April 5) and Orthodox Easter 2026 (April 12) as injected anchors. -/
def anchorTableC6 : String → Option DateExpr :=
  fun s =>
    if s = "easter" then some (.SpecialDate ⟨2026, 4, 5⟩)
    else if s = "paskha" then some (.SpecialDate ⟨2026, 4, 12⟩)
    else none

/-- C6 counterexample: the first definition does not win.  After processing
the lines "x = easter" then "x = paskha", the alias "x" holds the paskha
expression (the later declaration overwrote the earlier one); and the line
"easter = paskha", both of whose sides are known anchors, is applied anyway
and overwrites the existing "easter" entry. -/
theorem alias_first_wins_counterexample :
    parse_special_dates anchorTableC6 ["x = easter"] "x"
        = some (.SpecialDate ⟨2026, 4, 5⟩) ∧
    parse_special_dates anchorTableC6 ["x = easter", "x = paskha"] "x"
        = some (.SpecialDate ⟨2026, 4, 12⟩) ∧
    parse_special_dates anchorTableC6 ["easter = paskha"] "easter"
        = some (.SpecialDate ⟨2026, 4, 12⟩) ∧
    anchorTableC6 "easter" = some (.SpecialDate ⟨2026, 4, 5⟩) ∧
    (DateExpr.SpecialDate ⟨2026, 4, 12⟩) ≠ (.SpecialDate ⟨2026, 4, 5⟩) :=
  ⟨by decide, by decide, by decide, by decide, by decide⟩

/-- C6 (amended): a line containing '=' and no tab is treated as an alias
declaration, applied case-insensitively in either direction; it is applied
when the right-hand side is already known — binding the left name to the
right's expression, even if the left name is already bound, so among such
declarations the last one wins — or when only the left side is known,
binding the right name to the left's expression; a line where neither side
is known, a line containing a tab, or a line without '=' leaves the table
unchanged, and lines are processed first to last. -/
theorem alias_table_amended :
    (∀ (m : String → Option DateExpr) (line : String),
      line.toList.contains '=' = true → line.toList.contains '\t' = false →
      (∀ vl, m (pyLower (pyStrip (splitFirstOn '=' line).1)) = some vl →
        m (pyLower (pyStrip (splitFirstOn '=' line).2)) = none →
        parse_special_dates m [line]
          = updateExpr m (pyLower (pyStrip (splitFirstOn '=' line).2)) vl) ∧
      (∀ vr, m (pyLower (pyStrip (splitFirstOn '=' line).2)) = some vr →
        parse_special_dates m [line]
          = updateExpr m (pyLower (pyStrip (splitFirstOn '=' line).1)) vr) ∧
      (m (pyLower (pyStrip (splitFirstOn '=' line).1)) = none →
        m (pyLower (pyStrip (splitFirstOn '=' line).2)) = none →
        parse_special_dates m [line] = m)) ∧
    (∀ (m : String → Option DateExpr) (line : String),
      line.toList.contains '\t' = true → parse_special_dates m [line] = m) ∧
    (∀ (m : String → Option DateExpr) (line : String),
      line.toList.contains '=' = false → parse_special_dates m [line] = m) ∧
    (∀ (m : String → Option DateExpr) (line : String) (rest : List String),
      parse_special_dates m (line :: rest)
        = parse_special_dates (parse_special_dates m [line]) rest) := by
  refine ⟨?_, ?_, ?_, fun _ _ _ => rfl⟩
  · intro m line h1 h2
    have h1m : '=' ∈ line.data := by simpa using h1
    have h2m : '\t' ∉ line.data := by simpa using h2
    refine ⟨?_, ?_, ?_⟩
    · intro vl hl hr
      simp only [parse_special_dates, List.foldl]
      rw [if_pos (by simp [h1m, h2m])]
      simp only [hl, hr]
    · intro vr hr
      simp only [parse_special_dates, List.foldl]
      rw [if_pos (by simp [h1m, h2m])]
      cases hl : m (pyLower (pyStrip (splitFirstOn '=' line).1)) <;>
        simp only [hl, hr]
    · intro hl hr
      simp only [parse_special_dates, List.foldl]
      rw [if_pos (by simp [h1m, h2m])]
      simp only [hl, hr]
  · intro m line h2
    have h2m : '\t' ∈ line.data := by simpa using h2
    simp only [parse_special_dates, List.foldl]
    rw [if_neg (by simp [h2m])]
  · intro m line h1
    have h1m : '=' ∉ line.data := by simpa using h1
    simp only [parse_special_dates, List.foldl]
    rw [if_neg (by simp [h1m])]

/-- Witness for the amended C6 theorem: "easter = paskha" rebinds the
already-known left name to the right's expression. -/
theorem alias_table_amended_witness :
    parse_special_dates anchorTableC6 ["easter = paskha"]
      = updateExpr anchorTableC6 "easter" (.SpecialDate ⟨2026, 4, 12⟩) :=
  (alias_table_amended.1 anchorTableC6 "easter = paskha" (by decide) (by decide)).2.1
    (.SpecialDate ⟨2026, 4, 12⟩) (by decide)

/-- First-match-wins combination of an ordered list of pattern families. -/
def firstSomeList (fs : List (String → Option DateExpr)) (s : String) : Option DateExpr :=
  match fs with
  | [] => none
  | f :: rest =>
    match f s with
    | some e => some e
    | none => firstSomeList rest s

/-- Written from the spec's §4.1 ordered cascade: trim and lower-case the
field, then the first family matching the full string wins, in the order
offset-suffixed anchor keyword, plain anchor/alias lookup, bare weekday name,
bare month name; a field containing a slash (or starting with a digit and
containing a dash) is then tried as FullDate, MM/Weekday±N, the
ordinal-weekday forms, MonthName/DD and MM/DD in that order, any other field
as the six non-slash families; when no family matches the result is none. -/
def parseCascadeSpec (p : DateStringParser) (field : String) : Option DateExpr :=
  firstSomeList
    [ fun s =>
        match matchWordSignDigits s.toList with
        | some (w, off) => (p.date_exprs w).map (fun base => .OffsetDateExpr base off)
        | none => none,
      fun s => p.date_exprs s,
      fun s => (List.lookup s weekday_map).map DateExpr.EveryWeekday,
      fun s => (List.lookup s month_map).map (fun m => .FixedDate m 1),
      fun s =>
        if s.toList.contains '/'
            || (s.toList.contains '-'
              && (match s.toList with | c :: _ => isDigit09 c | [] => false)) then
          firstSomeList [parse_full_date, parse_mm_wkday_offset, parse_ordinal_weekday,
            parse_month_slash_dd, parse_mm_dd] s
        else
          firstSomeList [parse_month_wkday_offset, parse_month_dd, parse_wildcard_wkday,
            parse_wildcard_day, parse_wkday_ord_month, parse_dd_month] s ]
    (pyLower (pyStrip field))

/-- C8: the implemented parser equals the spec-ordered cascade on every
input and every anchor table — same trimming/lower-casing, same family
order, same full-string-match discipline, none when no family matches. -/
theorem parse_matches_spec_cascade (p : DateStringParser) (s : String) :
    p.parse s = parseCascadeSpec p s := by
  have hcons : ∀ (f : String → Option DateExpr) (fs : List (String → Option DateExpr))
      (t : String), firstSomeList (f :: fs) t = (f t <|> firstSomeList fs t) := by
    intro f fs t
    cases h : f t <;> simp [firstSomeList, h]
  have hnil : ∀ t : String, firstSomeList [] t = none := fun _ => rfl
  simp only [DateStringParser.parse, parseCascadeSpec, parse_format_patterns, hcons,
    hnil, Option.orElse_none]
